import Mathlib

/-!
Verification of the pprof-nodejs profile translation and serialization layer.

The native binding (`bindings/profiler.cc` in the repository's source) converts
V8 `CpuProfileNode` / `AllocationProfile::Node` trees into plain JS objects;
the TypeScript layer (`src/time-profiler.ts`) controls capture sessions and
hands the resulting tree to the profile serializer.  The tree translation
functions are embedded here directly from the C++ source; the serializer
(interning, sample aggregation), whose source is not part of the excerpt,
is modelled from the specification and marked as such.
-/

namespace Pprof

/-- A native V8 CPU profile node as read by the binding: function name, script
resource name, script id, line, column, immediate hit count (`GetHitCount`),
per-line tick data (`GetLineTicks`, pairs of (line, hit_count); `GetHitLineCount`
is the number of such pairs), and child nodes in discovery order. -/
structure CpuProfileNode where
  name : String
  scriptName : String
  scriptId : Nat
  lineNumber : Nat
  columnNumber : Nat
  hitCount : Nat
  lineTicks : List (Nat × Nat)
  children : List CpuProfileNode

/-- The plain JS object produced by `CreateTimeNode` in the binding. -/
structure TimeProfileNode where
  name : String
  scriptName : String
  scriptId : Nat
  lineNumber : Nat
  columnNumber : Nat
  hitCount : Nat
  children : List TimeProfileNode

/-- Function `CreateTimeNode` from the binding: builds the JS node object field by field. -/
def CreateTimeNode (name scriptName : String) (scriptId lineNumber columnNumber hitCount : Nat)
    (children : List TimeProfileNode) : TimeProfileNode :=
  ⟨name, scriptName, scriptId, lineNumber, columnNumber, hitCount, children⟩

mutual

/-- Function `TranslateLineNumbersTimeProfileNode(parent, node)` from the binding.
The emitted node carries the PARENT's function name / script name / script id,
the node's own line and column, and `GetHitLineCount` as its hit-count field.
Its child array holds first one synthetic node per line tick (line, column 0,
the tick's hit count, no children), then the recursively translated real
children.  `GetLineTicks` succeeds exactly when there is at least one tick. -/
def TranslateLineNumbersTimeProfileNode (parent node : CpuProfileNode) : TimeProfileNode :=
  let hitLineCount := node.lineTicks.length
  let syntheticChildren : List TimeProfileNode :=
    if 0 < hitLineCount then
      node.lineTicks.map (fun e =>
        CreateTimeNode parent.name parent.scriptName parent.scriptId e.1 0 e.2 [])
    else []
  CreateTimeNode parent.name parent.scriptName parent.scriptId
    node.lineNumber node.columnNumber hitLineCount
    (syntheticChildren ++ TranslateLineNumbersChildren node node.children)
termination_by sizeOf node
decreasing_by cases node; simp

/-- The `for` loop over `node->GetChild(i)` in
`TranslateLineNumbersTimeProfileNode`: each child is translated with `node`
as the parent argument. -/
def TranslateLineNumbersChildren (node : CpuProfileNode) :
    List CpuProfileNode → List TimeProfileNode
  | [] => []
  | c :: cs =>
      TranslateLineNumbersTimeProfileNode node c :: TranslateLineNumbersChildren node cs
termination_by l => sizeOf l
decreasing_by all_goals simp <;> omega

end

/-- Function `TranslateLineNumbersTimeProfileRoot` from the binding: the root keeps its
own identity fields and hit-line count; children are translated with the root
as parent. -/
def TranslateLineNumbersTimeProfileRoot (node : CpuProfileNode) : TimeProfileNode :=
  CreateTimeNode node.name node.scriptName node.scriptId
    node.lineNumber node.columnNumber node.lineTicks.length
    (TranslateLineNumbersChildren node node.children)

mutual

/-- Function `TranslateTimeProfileNode` from the binding (function-level mode): each
node keeps its own fields; the hit-count field is `GetHitLineCount` (as in the
source), and all children are translated recursively. -/
def TranslateTimeProfileNode (node : CpuProfileNode) : TimeProfileNode :=
  CreateTimeNode node.name node.scriptName node.scriptId
    node.lineNumber node.columnNumber node.lineTicks.length
    (TranslateChildren node.children)
termination_by sizeOf node
decreasing_by cases node; simp

/-- The child loop of `TranslateTimeProfileNode`. -/
def TranslateChildren : List CpuProfileNode → List TimeProfileNode
  | [] => []
  | c :: cs => TranslateTimeProfileNode c :: TranslateChildren cs
termination_by l => sizeOf l
decreasing_by all_goals simp <;> omega

end

/-- A native V8 allocation profile node: identity fields, the list of
`(sizeBytes, count)` allocation records, and children. -/
structure AllocationProfileNode where
  name : String
  scriptName : String
  scriptId : Nat
  lineNumber : Nat
  columnNumber : Nat
  allocations : List (Nat × Nat)
  children : List AllocationProfileNode

/-- The JS object produced by `TranslateAllocationProfile`. -/
structure AllocationJsNode where
  name : String
  scriptName : String
  scriptId : Nat
  lineNumber : Nat
  columnNumber : Nat
  allocations : List (Nat × Nat)
  children : List AllocationJsNode

mutual

/-- Function `TranslateAllocationProfile` from the binding: copies every field and
recursively translates every child. -/
def TranslateAllocationProfile (node : AllocationProfileNode) : AllocationJsNode :=
  ⟨node.name, node.scriptName, node.scriptId, node.lineNumber, node.columnNumber,
    node.allocations, TranslateAllocationChildren node.children⟩
termination_by sizeOf node
decreasing_by cases node; simp

/-- The child loop of `TranslateAllocationProfile`. -/
def TranslateAllocationChildren : List AllocationProfileNode → List AllocationJsNode
  | [] => []
  | c :: cs => TranslateAllocationProfile c :: TranslateAllocationChildren cs
termination_by l => sizeOf l
decreasing_by all_goals simp <;> omega

end

/-! ### Node counting, used to state that the tree walk visits every node once. -/

mutual

/-- Number of nodes of a native CPU tree. -/
def countNodes (n : CpuProfileNode) : Nat :=
  1 + countNodesList n.children
termination_by sizeOf n
decreasing_by cases n; simp

/-- Number of nodes of a native CPU forest. -/
def countNodesList : List CpuProfileNode → Nat
  | [] => 0
  | c :: cs => countNodes c + countNodesList cs
termination_by l => sizeOf l
decreasing_by all_goals simp <;> omega

end

mutual

/-- Number of nodes of a translated JS time-profile tree. -/
def countNodesT (n : TimeProfileNode) : Nat :=
  1 + countNodesListT n.children
termination_by sizeOf n
decreasing_by cases n; simp

/-- Number of nodes of a translated JS time-profile forest. -/
def countNodesListT : List TimeProfileNode → Nat
  | [] => 0
  | c :: cs => countNodesT c + countNodesListT cs
termination_by l => sizeOf l
decreasing_by all_goals simp <;> omega

end

mutual

/-- Number of nodes of a native allocation tree. -/
def countAllocNodes (n : AllocationProfileNode) : Nat :=
  1 + countAllocNodesList n.children
termination_by sizeOf n
decreasing_by cases n; simp

/-- Number of nodes of a native allocation forest. -/
def countAllocNodesList : List AllocationProfileNode → Nat
  | [] => 0
  | c :: cs => countAllocNodes c + countAllocNodesList cs
termination_by l => sizeOf l
decreasing_by all_goals simp <;> omega

end

mutual

/-- Number of nodes of a translated JS allocation tree. -/
def countAllocNodesJs (n : AllocationJsNode) : Nat :=
  1 + countAllocNodesListJs n.children
termination_by sizeOf n
decreasing_by cases n; simp

/-- Number of nodes of a translated JS allocation forest. -/
def countAllocNodesListJs : List AllocationJsNode → Nat
  | [] => 0
  | c :: cs => countAllocNodesJs c + countAllocNodesListJs cs
termination_by l => sizeOf l
decreasing_by all_goals simp <;> omega

end

/-! ### The TypeScript control surface of `src/time-profiler.ts`. -/

/-- Constant `DEFAULT_INTERVAL_MICROS` from `src/time-profiler.ts`. -/
def DEFAULT_INTERVAL_MICROS : Nat := 1000

/-- JavaScript `x || d` on an optional numeric option: `undefined` and the
falsy value `0` both select the default. -/
def jsOr (x : Option Nat) (d : Nat) : Nat :=
  match x with
  | some v => if v = 0 then d else v
  | none => d

/-- The sampling interval `profile(options)` passes to `start`:
`options.intervalMicros || DEFAULT_INTERVAL_MICROS`. -/
def profileIntervalMicros (intervalMicros : Option Nat) : Nat :=
  jsOr intervalMicros DEFAULT_INTERVAL_MICROS

/-- The observable state of the module: the module-level `profiling` flag and
whether a native capture session is running. -/
structure TimeProfilerState where
  profiling : Bool
  captureActive : Bool

/-- Function `start` from `src/time-profiler.ts`: if the `profiling` flag is set it
throws `Error('already profiling')` before touching any state (modelled as
returning the unchanged state plus the error message); otherwise it sets the
flag and starts a native capture. -/
def start (s : TimeProfilerState) : TimeProfilerState × Option String :=
  if s.profiling then (s, some "already profiling")
  else ({ profiling := true, captureActive := true }, none)

/-- The `stop` closure returned by `start`: clears the `profiling` flag and
stops the native capture. -/
def stop (_s : TimeProfilerState) : TimeProfilerState :=
  { profiling := false, captureActive := false }

/-! ### The profile serializer, modelled from the spec.

The repository's `serializeTimeProfile` (profile-serializer) source is not in
the excerpt; only its callers are.  The definitions below are modelled from
the specification's Interner / Tree Walker / Aggregator contracts. -/

/-- Modelled from the spec: a Function record interned by the serializer,
`{name, system/script name, script id}` (the serializer source is missing
from the excerpt). -/
structure FunctionRecord where
  name : String
  scriptName : String
  scriptId : Nat
deriving DecidableEq

/-- Modelled from the spec: a Location record interned by the serializer,
`{owning Function id, line, column}` (the serializer source is missing from
the excerpt). -/
structure LocationRecord where
  functionId : Nat
  line : Nat
  column : Nat
deriving DecidableEq

/-- Modelled from the spec: an interning table of (id, value) entries in
insertion order, with the next id to assign; ids start at 1 and 0 is reserved
for absent references. -/
structure Table (α : Type) where
  entries : List (Nat × α)
  nextId : Nat

/-- The empty interning table: no entries, first id to assign is 1. -/
def Table.empty {α : Type} : Table α := ⟨[], 1⟩

/-- The ids assigned by a table, in insertion order. -/
def idsOf {α : Type} (t : Table α) : List Nat := t.entries.map Prod.fst

/-- Finds the id of an entry structurally equal to `v`, if any. -/
def lookupId {α : Type} [DecidableEq α] : List (Nat × α) → α → Option Nat
  | [], _ => none
  | e :: es, v => if e.2 = v then some e.1 else lookupId es v

/-- Modelled from the spec: `intern(value) -> id` — return the id of an
existing structurally equal entry, or append the value under the next id
(monotonically increasing, starting at 1; the serializer source is missing
from the excerpt). -/
def intern {α : Type} [DecidableEq α] (t : Table α) (v : α) : Nat × Table α :=
  match lookupId t.entries v with
  | some i => (i, t)
  | none => (t.nextId, ⟨t.entries ++ [(t.nextId, v)], t.nextId + 1⟩)

/-- Well-formedness of an interning table: every assigned id is at least 1 and
below `nextId`, ids are pairwise distinct, and `nextId` is at least 1. -/
def TWF {α : Type} (t : Table α) : Prop :=
  (∀ e ∈ t.entries, 1 ≤ e.1 ∧ e.1 < t.nextId) ∧ (idsOf t).Nodup ∧ 1 ≤ t.nextId

/-- Modelled from the spec: one Sample — leaf-to-root location id path plus
the `(count, time)` value pair. -/
structure Sample where
  locationIds : List Nat
  value : Nat × Nat

/-- Modelled from the spec: the serializer's in-progress Canonical Document —
function table, location table and sample list. -/
structure SerState where
  functions : Table FunctionRecord
  locations : Table LocationRecord
  samples : List Sample

/-- Modelled from the spec: visiting one node of the translated tree — intern
its Function `{name, scriptName, scriptId}`, intern its Location
`{function id, line, column}`, and append one Sample with leaf-to-root path
`location :: stack` and values `(hitCount, hitCount * intervalMicros)` when
the node's hit-count field is positive.  Returns the updated document state
and the node's location id. -/
def visitNode (intervalMicros : Nat) (stack : List Nat) (st : SerState)
    (n : TimeProfileNode) : SerState × Nat :=
  let fres := intern st.functions ⟨n.name, n.scriptName, n.scriptId⟩
  let lres := intern st.locations ⟨fres.1, n.lineNumber, n.columnNumber⟩
  (⟨fres.2, lres.2,
      st.samples ++
        (if 0 < n.hitCount then
          [⟨lres.1 :: stack, (n.hitCount, n.hitCount * intervalMicros)⟩]
        else [])⟩,
    lres.1)

mutual

/-- Modelled from the spec: the serializer's tree walk over the translated JS
tree (the `serializeTimeProfile` source is missing from the excerpt).  Each
visited node interns its function and location, contributes a Sample when its
hit count is positive, and recurses into all children with its location
pushed on the stack. -/
def walkNode (intervalMicros : Nat) (stack : List Nat) (st : SerState)
    (n : TimeProfileNode) : SerState :=
  walkList intervalMicros ((visitNode intervalMicros stack st n).2 :: stack)
    (visitNode intervalMicros stack st n).1 n.children
termination_by sizeOf n
decreasing_by cases n; simp

/-- The walk over a child list, threading the serializer state left to right. -/
def walkList (intervalMicros : Nat) (stack : List Nat) (st : SerState) :
    List TimeProfileNode → SerState
  | [] => st
  | c :: cs => walkList intervalMicros stack (walkNode intervalMicros stack st c) cs
termination_by l => sizeOf l
decreasing_by all_goals simp <;> omega

end

/-- Modelled from the spec: serializing one translated time profile — walk the
tree from the root with empty stack and empty tables. -/
def serializeTimeProfile (root : TimeProfileNode) (intervalMicros : Nat) : SerState :=
  walkNode intervalMicros [] ⟨Table.empty, Table.empty, []⟩ root

mutual

/-- The nodes of a translated tree that contribute a Sample (positive
hit-count field), in walk (preorder) order. -/
def sampleNodes (m : TimeProfileNode) : List TimeProfileNode :=
  (if 0 < m.hitCount then [m] else []) ++ sampleNodesList m.children
termination_by sizeOf m
decreasing_by cases m; simp

/-- Sample-contributing nodes of a forest. -/
def sampleNodesList : List TimeProfileNode → List TimeProfileNode
  | [] => []
  | c :: cs => sampleNodes c ++ sampleNodesList cs
termination_by l => sizeOf l
decreasing_by all_goals simp <;> omega

end

/-- State `st'` extends `st`: all three components of the serializer state only
grew at the end. -/
def stExtend (st st' : SerState) : Prop :=
  (∃ l, st'.functions.entries = st.functions.entries ++ l) ∧
  (∃ l, st'.locations.entries = st.locations.entries ++ l) ∧
  (∃ l, st'.samples = st.samples ++ l)

/-- The Canonical Document invariant: both tables well formed, every location
id referenced by a sample present in the location table, every function id
referenced by a location entry present in the function table. -/
def SInv (st : SerState) : Prop :=
  TWF st.functions ∧ TWF st.locations ∧
  (∀ s ∈ st.samples, ∀ lid ∈ s.locationIds, lid ∈ idsOf st.locations) ∧
  (∀ e ∈ st.locations.entries, e.2.functionId ∈ idsOf st.functions)

/-! ### Helper lemmas about the line-numbers translation. -/

/-- One-step unfolding of the translated node: synthetic per-line children
come first, then the translated real children; the `if` guard mirrors the
`GetLineTicks` success test and is redundant for an empty tick list. -/
theorem translateLN_unfold (p n : CpuProfileNode) :
    TranslateLineNumbersTimeProfileNode p n =
      CreateTimeNode p.name p.scriptName p.scriptId n.lineNumber n.columnNumber
        n.lineTicks.length
        ((n.lineTicks.map (fun e =>
            CreateTimeNode p.name p.scriptName p.scriptId e.1 0 e.2 [])) ++
          TranslateLineNumbersChildren n n.children) := by
  rw [TranslateLineNumbersTimeProfileNode.eq_1]
  by_cases h : 0 < n.lineTicks.length
  · simp [h]
  · have h0 : n.lineTicks = [] := List.length_eq_zero.mp (by omega)
    simp [h, h0]

/-- The child-translation loop is a `map` with the node as parent. -/
theorem translateLNChildren_map (p : CpuProfileNode) (l : List CpuProfileNode) :
    TranslateLineNumbersChildren p l =
      l.map (fun c => TranslateLineNumbersTimeProfileNode p c) := by
  induction l with
  | nil => rw [TranslateLineNumbersChildren.eq_1]; rfl
  | cons c cs ih => rw [TranslateLineNumbersChildren.eq_2, ih]; rfl

/-- The full child list of a translated node: synthetic per-line children
first, then the recursively translated real children. -/
theorem translateLN_children (p n : CpuProfileNode) :
    (TranslateLineNumbersTimeProfileNode p n).children =
      (n.lineTicks.map (fun e =>
        CreateTimeNode p.name p.scriptName p.scriptId e.1 0 e.2 [])) ++
        n.children.map (fun c => TranslateLineNumbersTimeProfileNode n c) := by
  rw [translateLN_unfold, translateLNChildren_map]
  rfl

theorem translateLN_name (p n : CpuProfileNode) :
    (TranslateLineNumbersTimeProfileNode p n).name = p.name := by
  rw [translateLN_unfold]; rfl

theorem translateLN_scriptName (p n : CpuProfileNode) :
    (TranslateLineNumbersTimeProfileNode p n).scriptName = p.scriptName := by
  rw [translateLN_unfold]; rfl

theorem translateLN_scriptId (p n : CpuProfileNode) :
    (TranslateLineNumbersTimeProfileNode p n).scriptId = p.scriptId := by
  rw [translateLN_unfold]; rfl

theorem translateLN_lineNumber (p n : CpuProfileNode) :
    (TranslateLineNumbersTimeProfileNode p n).lineNumber = n.lineNumber := by
  rw [translateLN_unfold]; rfl

theorem translateLN_columnNumber (p n : CpuProfileNode) :
    (TranslateLineNumbersTimeProfileNode p n).columnNumber = n.columnNumber := by
  rw [translateLN_unfold]; rfl

theorem translateLN_hitCount (p n : CpuProfileNode) :
    (TranslateLineNumbersTimeProfileNode p n).hitCount = n.lineTicks.length := by
  rw [translateLN_unfold]; rfl

/-! ### Lemmas about the interner. -/

theorem lookupId_some_mem {α : Type} [DecidableEq α] {l : List (Nat × α)} {v : α} {i : Nat}
    (h : lookupId l v = some i) : (i, v) ∈ l := by
  induction l with
  | nil => simp [lookupId] at h
  | cons e es ih =>
      rw [lookupId] at h
      by_cases he : e.2 = v
      · rw [if_pos he] at h
        injection h with h1
        subst h1
        rw [← he]
        exact List.mem_cons_self _ _
      · rw [if_neg he] at h
        exact List.mem_cons_of_mem _ (ih h)

theorem lookupId_none_append {α : Type} [DecidableEq α] {l : List (Nat × α)} {v : α} {i : Nat}
    (h : lookupId l v = none) : lookupId (l ++ [(i, v)]) v = some i := by
  induction l with
  | nil => simp [lookupId]
  | cons e es ih =>
      rw [lookupId] at h
      by_cases he : e.2 = v
      · rw [if_pos he] at h; cases h
      · rw [if_neg he] at h
        rw [List.cons_append, lookupId, if_neg he]
        exact ih h

/-- The table after interning either is unchanged or gained exactly the new
entry `(t.nextId, v)` at the end. -/
theorem intern_entries_cases {α : Type} [DecidableEq α] (t : Table α) (v : α) :
    (intern t v).2.entries = t.entries ∨
      (intern t v).2.entries = t.entries ++ [(t.nextId, v)] := by
  cases h : lookupId t.entries v with
  | some i => left; simp [intern, h]
  | none => right; simp [intern, h]

theorem intern_ids_subset {α : Type} [DecidableEq α] (t : Table α) (v : α) :
    idsOf t ⊆ idsOf (intern t v).2 := by
  rcases intern_entries_cases t v with h | h <;> simp only [idsOf] <;> rw [h]
  · exact fun x hx => hx
  · rw [List.map_append]
    exact fun x hx => List.mem_append_left _ hx

/-- The id returned by `intern` is in the resulting table. -/
theorem intern_mem {α : Type} [DecidableEq α] (t : Table α) (v : α) :
    (intern t v).1 ∈ idsOf (intern t v).2 := by
  cases h : lookupId t.entries v with
  | some i =>
      simp only [intern, h, idsOf]
      exact List.mem_map_of_mem _ (lookupId_some_mem h)
  | none =>
      simp [intern, h, idsOf]

/-- Interning preserves table well-formedness. -/
theorem TWF_intern {α : Type} [DecidableEq α] {t : Table α} (v : α) (h : TWF t) :
    TWF (intern t v).2 := by
  obtain ⟨hb, hnd, h1⟩ := h
  cases hl : lookupId t.entries v with
  | some i =>
      simp only [intern, hl]
      exact ⟨hb, hnd, h1⟩
  | none =>
      simp only [intern, hl]
      refine ⟨?_, ?_, by show 1 ≤ t.nextId + 1; omega⟩
      · intro e he
        rcases List.mem_append.mp he with he | he
        · have := hb e he
          exact ⟨this.1, by show e.1 < t.nextId + 1; omega⟩
        · rcases List.mem_singleton.mp he with rfl
          exact ⟨h1, by show t.nextId < t.nextId + 1; omega⟩
      · simp only [idsOf, List.map_append, List.nodup_append]
        refine ⟨hnd, List.nodup_singleton _, ?_⟩
        intro x hx hx'
        rcases List.mem_map.mp hx with ⟨e, he, rfl⟩
        rcases List.mem_singleton.mp hx' with h'
        have := (hb e he).2
        omega

theorem TWF_empty {α : Type} : TWF (Table.empty : Table α) := by
  refine ⟨?_, ?_, le_refl 1⟩
  · intro e he; simp [Table.empty] at he
  · simp [Table.empty, idsOf]

/-- Every id handed out by `intern` on a well-formed table is positive. -/
theorem intern_pos {α : Type} [DecidableEq α] {t : Table α} (v : α) (h : TWF t) :
    1 ≤ (intern t v).1 := by
  obtain ⟨hb, _, h1⟩ := h
  cases hl : lookupId t.entries v with
  | some i =>
      simp only [intern, hl]
      exact (hb _ (lookupId_some_mem hl)).1
  | none =>
      simp only [intern, hl]
      exact h1

/-- Interning a value twice returns the same id and leaves the table alone the
second time. -/
theorem intern_idem {α : Type} [DecidableEq α] (t : Table α) (v : α) :
    intern (intern t v).2 v = ((intern t v).1, (intern t v).2) := by
  cases h : lookupId t.entries v with
  | some i => simp only [intern, h]
  | none => simp only [intern, h, lookupId_none_append h]

/-- Interning a value not yet in the table assigns the table's next id. -/
theorem intern_fresh {α : Type} [DecidableEq α] {t : Table α} {v : α}
    (h : lookupId t.entries v = none) : (intern t v).1 = t.nextId := by
  simp [intern, h]

/-- A freshly assigned id is strictly greater than every previously assigned id. -/
theorem intern_fresh_gt {α : Type} [DecidableEq α] {t : Table α} {v : α} (hwf : TWF t)
    (h : lookupId t.entries v = none) : ∀ e ∈ t.entries, e.1 < (intern t v).1 := by
  intro e he
  rw [intern_fresh h]
  exact (hwf.1 e he).2

/-- The very first interned value receives id 1. -/
theorem intern_empty_id {α : Type} [DecidableEq α] (v : α) :
    (intern (Table.empty : Table α) v).1 = 1 := by
  simp [intern, Table.empty, lookupId]

/-! ### Monotonic growth of the serializer state along the walk. -/

theorem stExtend_refl (st : SerState) : stExtend st st :=
  ⟨⟨[], by simp⟩, ⟨[], by simp⟩, ⟨[], by simp⟩⟩

theorem stExtend_trans {s1 s2 s3 : SerState} (h12 : stExtend s1 s2) (h23 : stExtend s2 s3) :
    stExtend s1 s3 := by
  obtain ⟨⟨f1, hf1⟩, ⟨l1, hl1⟩, ⟨p1, hp1⟩⟩ := h12
  obtain ⟨⟨f2, hf2⟩, ⟨l2, hl2⟩, ⟨p2, hp2⟩⟩ := h23
  exact ⟨⟨f1 ++ f2, by rw [hf2, hf1, List.append_assoc]⟩,
    ⟨l1 ++ l2, by rw [hl2, hl1, List.append_assoc]⟩,
    ⟨p1 ++ p2, by rw [hp2, hp1, List.append_assoc]⟩⟩

theorem stExtend_locIds {st st' : SerState} (h : stExtend st st') :
    idsOf st.locations ⊆ idsOf st'.locations := by
  obtain ⟨_, ⟨l, hl⟩, _⟩ := h
  rw [idsOf, idsOf, hl, List.map_append]
  exact fun x hx => List.mem_append_left _ hx

theorem stExtend_funIds {st st' : SerState} (h : stExtend st st') :
    idsOf st.functions ⊆ idsOf st'.functions := by
  obtain ⟨⟨l, hl⟩, _, _⟩ := h
  rw [idsOf, idsOf, hl, List.map_append]
  exact fun x hx => List.mem_append_left _ hx

/-! ### The document invariant preserved by the walk. -/

theorem visitNode_inv (i : Nat) (stack : List Nat) (st : SerState) (n : TimeProfileNode)
    (hinv : SInv st) (hstack : ∀ x ∈ stack, x ∈ idsOf st.locations) :
    SInv (visitNode i stack st n).1 ∧ stExtend st (visitNode i stack st n).1 ∧
      (visitNode i stack st n).2 ∈ idsOf (visitNode i stack st n).1.locations := by
  obtain ⟨hwf_f, hwf_l, hsamp, hloc⟩ := hinv
  have hext : stExtend st (visitNode i stack st n).1 := by
    refine ⟨?_, ?_, ⟨_, rfl⟩⟩
    · rcases intern_entries_cases st.functions ⟨n.name, n.scriptName, n.scriptId⟩ with h | h
      · exact ⟨[], by simp [visitNode, h]⟩
      · exact ⟨[(st.functions.nextId, ⟨n.name, n.scriptName, n.scriptId⟩)],
          by simp [visitNode, h]⟩
    · rcases intern_entries_cases st.locations
        ⟨(intern st.functions ⟨n.name, n.scriptName, n.scriptId⟩).1,
          n.lineNumber, n.columnNumber⟩ with h | h
      · exact ⟨[], by simp [visitNode, h]⟩
      · exact ⟨[(st.locations.nextId,
            ⟨(intern st.functions ⟨n.name, n.scriptName, n.scriptId⟩).1,
              n.lineNumber, n.columnNumber⟩)],
          by simp [visitNode, h]⟩
  have hmem : (visitNode i stack st n).2 ∈ idsOf (visitNode i stack st n).1.locations := by
    simp only [visitNode]
    exact intern_mem _ _
  refine ⟨⟨TWF_intern _ hwf_f, TWF_intern _ hwf_l, ?_, ?_⟩, hext, hmem⟩
  · intro s hs lid hlid
    simp only [visitNode] at hs ⊢
    rcases List.mem_append.mp hs with hs | hs
    · exact stExtend_locIds hext (hsamp s hs lid hlid)
    · by_cases hc : 0 < n.hitCount
      · rw [if_pos hc] at hs
        rcases List.mem_singleton.mp hs with rfl
        rcases List.mem_cons.mp hlid with rfl | hlid
        · exact intern_mem _ _
        · exact stExtend_locIds hext (hstack lid hlid)
      · rw [if_neg hc] at hs
        simp at hs
  · intro e he
    simp only [visitNode] at he ⊢
    rcases intern_entries_cases st.locations
        ⟨(intern st.functions ⟨n.name, n.scriptName, n.scriptId⟩).1,
          n.lineNumber, n.columnNumber⟩ with h | h
    · rw [h] at he
      exact stExtend_funIds hext (hloc e he)
    · rw [h] at he
      rcases List.mem_append.mp he with he | he
      · exact stExtend_funIds hext (hloc e he)
      · rcases List.mem_singleton.mp he with rfl
        exact intern_mem _ _

mutual

theorem walkNode_inv (i : Nat) (stack : List Nat) (st : SerState) (n : TimeProfileNode)
    (hinv : SInv st) (hstack : ∀ x ∈ stack, x ∈ idsOf st.locations) :
    SInv (walkNode i stack st n) ∧ stExtend st (walkNode i stack st n) := by
  rw [walkNode.eq_1]
  have hv := visitNode_inv i stack st n hinv hstack
  have hstack1 : ∀ x ∈ (visitNode i stack st n).2 :: stack,
      x ∈ idsOf (visitNode i stack st n).1.locations := by
    intro x hx
    rcases List.mem_cons.mp hx with rfl | hx
    · exact hv.2.2
    · exact stExtend_locIds hv.2.1 (hstack x hx)
  have hw := walkList_inv i ((visitNode i stack st n).2 :: stack)
    (visitNode i stack st n).1 n.children hv.1 hstack1
  exact ⟨hw.1, stExtend_trans hv.2.1 hw.2⟩
termination_by sizeOf n
decreasing_by cases n; simp

theorem walkList_inv (i : Nat) (stack : List Nat) (st : SerState) (l : List TimeProfileNode)
    (hinv : SInv st) (hstack : ∀ x ∈ stack, x ∈ idsOf st.locations) :
    SInv (walkList i stack st l) ∧ stExtend st (walkList i stack st l) := by
  match l with
  | [] =>
      rw [walkList.eq_1]
      exact ⟨hinv, stExtend_refl st⟩
  | c :: cs =>
      rw [walkList.eq_2]
      have h1 := walkNode_inv i stack st c hinv hstack
      have hstack2 : ∀ x ∈ stack, x ∈ idsOf (walkNode i stack st c).locations :=
        fun x hx => stExtend_locIds h1.2 (hstack x hx)
      have h2 := walkList_inv i stack (walkNode i stack st c) cs h1.1 hstack2
      exact ⟨h2.1, stExtend_trans h1.2 h2.2⟩
termination_by sizeOf l
decreasing_by all_goals simp <;> omega

end

/-! ### Sample values along the walk. -/

theorem visitNode_samples (i : Nat) (stack : List Nat) (st : SerState) (n : TimeProfileNode) :
    (visitNode i stack st n).1.samples =
      st.samples ++
        (if 0 < n.hitCount then
          [⟨(visitNode i stack st n).2 :: stack, (n.hitCount, n.hitCount * i)⟩]
        else []) := by
  simp only [visitNode]

mutual

theorem walkNode_samples (i : Nat) (stack : List Nat) (st : SerState) (n : TimeProfileNode) :
    (walkNode i stack st n).samples.map Sample.value =
      st.samples.map Sample.value ++
        (sampleNodes n).map (fun m => (m.hitCount, m.hitCount * i)) := by
  rw [walkNode.eq_1]
  rw [walkList_samples i ((visitNode i stack st n).2 :: stack) (visitNode i stack st n).1
    n.children]
  rw [visitNode_samples, sampleNodes.eq_1]
  by_cases hc : 0 < n.hitCount
  · rw [if_pos hc, if_pos hc]
    simp [List.map_append]
  · rw [if_neg hc, if_neg hc]
    simp [List.map_append]
termination_by sizeOf n
decreasing_by cases n; simp

theorem walkList_samples (i : Nat) (stack : List Nat) (st : SerState)
    (l : List TimeProfileNode) :
    (walkList i stack st l).samples.map Sample.value =
      st.samples.map Sample.value ++
        (sampleNodesList l).map (fun m => (m.hitCount, m.hitCount * i)) := by
  match l with
  | [] =>
      rw [walkList.eq_1, sampleNodesList.eq_1]
      simp
  | c :: cs =>
      rw [walkList.eq_2, sampleNodesList.eq_2]
      rw [walkList_samples i stack (walkNode i stack st c) cs]
      rw [walkNode_samples i stack st c]
      simp [List.map_append]
termination_by sizeOf l
decreasing_by all_goals simp <;> omega

end

/-! ### The function-level and allocation tree walks visit every node once. -/

mutual

theorem count_pres (n : CpuProfileNode) :
    countNodesT (TranslateTimeProfileNode n) = countNodes n := by
  rw [TranslateTimeProfileNode.eq_1, countNodes.eq_1, countNodesT.eq_1]
  simp [CreateTimeNode]
  exact count_pres_list n.children
termination_by sizeOf n
decreasing_by cases n; simp

theorem count_pres_list (l : List CpuProfileNode) :
    countNodesListT (TranslateChildren l) = countNodesList l := by
  match l with
  | [] => simp [TranslateChildren.eq_1, countNodesListT.eq_1, countNodesList.eq_1]
  | c :: cs =>
      rw [TranslateChildren.eq_2, countNodesListT.eq_2, countNodesList.eq_2]
      rw [count_pres c, count_pres_list cs]
termination_by sizeOf l
decreasing_by all_goals simp <;> omega

end

mutual

theorem count_pres_alloc (n : AllocationProfileNode) :
    countAllocNodesJs (TranslateAllocationProfile n) = countAllocNodes n := by
  rw [TranslateAllocationProfile.eq_1, countAllocNodes.eq_1, countAllocNodesJs.eq_1]
  simp
  exact count_pres_alloc_list n.children
termination_by sizeOf n
decreasing_by cases n; simp

theorem count_pres_alloc_list (l : List AllocationProfileNode) :
    countAllocNodesListJs (TranslateAllocationChildren l) = countAllocNodesList l := by
  match l with
  | [] =>
      simp [TranslateAllocationChildren.eq_1, countAllocNodesListJs.eq_1,
        countAllocNodesList.eq_1]
  | c :: cs =>
      rw [TranslateAllocationChildren.eq_2, countAllocNodesListJs.eq_2,
        countAllocNodesList.eq_2]
      rw [count_pres_alloc c, count_pres_alloc_list cs]
termination_by sizeOf l
decreasing_by all_goals simp <;> omega

end

/-! ### The claims. -/

/-- Claim C1: in line-level mode, walking a node that carries line-hit data
`{(10,3),(12,5)}` and has zero real children produces exactly two synthetic
child locations, one at line 10 with hit count 3 and one at line 12 with hit
count 5; and if the node's immediate (non-line) hit count is nonzero, the
node's own location is also produced (the node contributes its own sample in
the spec-modelled serializer walk; in fact the code emits it whenever the
node's hit-line count — here 2 — is nonzero, which subsumes the claimed
condition). -/
theorem c1_line_level_expansion (p : CpuProfileNode) (nm sn : String)
    (sid ln col h : Nat) :
    (TranslateLineNumbersTimeProfileNode p
        ⟨nm, sn, sid, ln, col, h, [(10, 3), (12, 5)], []⟩).children =
      [CreateTimeNode p.name p.scriptName p.scriptId 10 0 3 [],
        CreateTimeNode p.name p.scriptName p.scriptId 12 0 5 []] ∧
    (h ≠ 0 →
      TranslateLineNumbersTimeProfileNode p
          ⟨nm, sn, sid, ln, col, h, [(10, 3), (12, 5)], []⟩ ∈
        sampleNodes (TranslateLineNumbersTimeProfileNode p
          ⟨nm, sn, sid, ln, col, h, [(10, 3), (12, 5)], []⟩)) := by
  constructor
  · rw [translateLN_children]
    simp
  · intro _
    rw [sampleNodes.eq_1, translateLN_hitCount]
    simp

/-- Witness for C1 at a concrete parent and node. -/
theorem c1_witness :
    (4 : Nat) ≠ 0 ∧
    (TranslateLineNumbersTimeProfileNode ⟨"p", "ps", 1, 2, 0, 0, [], []⟩
        ⟨"f", "fs", 2, 5, 0, 4, [(10, 3), (12, 5)], []⟩).children =
      [CreateTimeNode "p" "ps" 1 10 0 3 [], CreateTimeNode "p" "ps" 1 12 0 5 []] ∧
    TranslateLineNumbersTimeProfileNode ⟨"p", "ps", 1, 2, 0, 0, [], []⟩
        ⟨"f", "fs", 2, 5, 0, 4, [(10, 3), (12, 5)], []⟩ ∈
      sampleNodes (TranslateLineNumbersTimeProfileNode ⟨"p", "ps", 1, 2, 0, 0, [], []⟩
        ⟨"f", "fs", 2, 5, 0, 4, [(10, 3), (12, 5)], []⟩) := by
  have h := c1_line_level_expansion ⟨"p", "ps", 1, 2, 0, 0, [], []⟩ "f" "fs" 2 5 0 4
  exact ⟨by decide, h.1, h.2 (by decide)⟩

/-- Counterexample to C2 as stated: for a node with one line tick and one real
child, the synthetic child sits at index 0, BEFORE the real child — not after
all real children as claimed. -/
theorem c2_order_counterexample :
    (TranslateLineNumbersTimeProfileNode ⟨"p", "ps", 1, 1, 0, 0, [], []⟩
        ⟨"f", "fs", 3, 5, 0, 9, [(10, 3)], [⟨"g", "gs", 2, 7, 0, 0, [], []⟩]⟩).children =
      [CreateTimeNode "p" "ps" 1 10 0 3 [], CreateTimeNode "f" "fs" 3 7 0 0 []] ∧
    [CreateTimeNode "p" "ps" 1 10 0 3 [], CreateTimeNode "f" "fs" 3 7 0 0 []] ≠
      [CreateTimeNode "f" "fs" 3 7 0 0 [], CreateTimeNode "p" "ps" 1 10 0 3 []] := by
  constructor
  · rw [translateLN_children]
    simp [translateLN_unfold, TranslateLineNumbersChildren.eq_1, CreateTimeNode]
  · simp [CreateTimeNode]

/-- Claim C2, amended: in line-level mode the synthetic per-line children
appear BEFORE the node's real children (they occupy the initial positions of
the child list), in the order the native profiler returned the line ticks,
and are constructed before the recursion into the real children whose
translations follow them. -/
theorem c2_synthetic_children_first (p n : CpuProfileNode) :
    (TranslateLineNumbersTimeProfileNode p n).children =
      (n.lineTicks.map (fun e =>
        CreateTimeNode p.name p.scriptName p.scriptId e.1 0 e.2 [])) ++
        n.children.map (fun c => TranslateLineNumbersTimeProfileNode n c) :=
  translateLN_children p n

/-- Claim C3: every synthetic pseudo-node created from a `(line, hitCount)`
pair carries the same function identity fields (name, script name, script id)
as the translated node that owns the line data, its own line number, column
number 0, and an empty child list.  (In the translated tree those identity
fields are the caller-attributed ones, i.e. the native parent's; see C9.) -/
theorem c3_synthetic_child_fields (p n : CpuProfileNode) :
    (TranslateLineNumbersTimeProfileNode p n).children.take n.lineTicks.length =
      n.lineTicks.map (fun e =>
        CreateTimeNode (TranslateLineNumbersTimeProfileNode p n).name
          (TranslateLineNumbersTimeProfileNode p n).scriptName
          (TranslateLineNumbersTimeProfileNode p n).scriptId e.1 0 e.2 []) := by
  rw [translateLN_name, translateLN_scriptName, translateLN_scriptId, translateLN_children]
  have h := List.take_left
    (n.lineTicks.map (fun e =>
      CreateTimeNode p.name p.scriptName p.scriptId e.1 0 e.2 []))
    (n.children.map (fun c => TranslateLineNumbersTimeProfileNode n c))
  rw [List.length_map] at h
  rw [h]

/-- Claim C4: calling `start` while the `profiling` flag is set fails
synchronously with the error `already profiling` reported to the caller (not
a process abort), starts no new capture (the state is unchanged), and the
first `start` after the returned `stop` function has run succeeds. -/
theorem c4_start_already_profiling (s : TimeProfilerState) (h : s.profiling = true) :
    start s = (s, some "already profiling") ∧
    (∀ s' : TimeProfilerState,
      start (stop s') = (⟨true, true⟩, none)) := by
  constructor
  · simp [start, h]
  · intro s'
    simp [start, stop]

/-- Witness for C4 at a concrete state. -/
theorem c4_witness :
    start ⟨true, true⟩ = (⟨true, true⟩, some "already profiling") ∧
    start (stop ⟨true, true⟩) = (⟨true, true⟩, none) := by
  have h := c4_start_already_profiling ⟨true, true⟩ rfl
  exact ⟨h.1, h.2 ⟨true, true⟩⟩

/-- Claim C5: the tree walk visits every node of the input call tree exactly
once (the translated tree has exactly one node per input node, for both the
CPU and the allocation walk), and a node with zero weight and zero line hits
is still recursed into: it contributes no sample itself, but all samples of
its descendants are kept (sample emission per the spec-modelled serializer). -/
theorem c5_walk_visits_every_node :
    (∀ n : CpuProfileNode, countNodesT (TranslateTimeProfileNode n) = countNodes n) ∧
    (∀ a : AllocationProfileNode,
      countAllocNodesJs (TranslateAllocationProfile a) = countAllocNodes a) ∧
    (∀ m : TimeProfileNode, m.hitCount = 0 →
      sampleNodes m = sampleNodesList m.children) := by
  refine ⟨count_pres, count_pres_alloc, ?_⟩
  intro m h
  rw [sampleNodes.eq_1, h]
  simp

/-- Witness for C5 at a concrete zero-weight node with a child. -/
theorem c5_witness :
    countNodesT (TranslateTimeProfileNode ⟨"f", "fs", 1, 2, 3, 0, [], []⟩) =
      countNodes ⟨"f", "fs", 1, 2, 3, 0, [], []⟩ ∧
    sampleNodes ⟨"f", "fs", 1, 2, 3, 0, [⟨"g", "gs", 2, 4, 5, 7, []⟩]⟩ =
      sampleNodesList [⟨"g", "gs", 2, 4, 5, 7, []⟩] := by
  exact ⟨c5_walk_visits_every_node.1 ⟨"f", "fs", 1, 2, 3, 0, [], []⟩,
    c5_walk_visits_every_node.2.2 ⟨"f", "fs", 1, 2, 3, 0, [⟨"g", "gs", 2, 4, 5, 7, []⟩]⟩ rfl⟩

/-- Claim C6: in every output Canonical Document, every location id referenced
by any sample exists exactly once in the location table, and every function
id referenced by any location exists exactly once in the function table
(serializer modelled from the spec). -/
theorem c6_table_consistency (root : TimeProfileNode) (intervalMicros : Nat) :
    (∀ s ∈ (serializeTimeProfile root intervalMicros).samples,
      ∀ lid ∈ s.locationIds,
        (idsOf (serializeTimeProfile root intervalMicros).locations).count lid = 1) ∧
    (∀ e ∈ (serializeTimeProfile root intervalMicros).locations.entries,
      (idsOf (serializeTimeProfile root intervalMicros).functions).count
        e.2.functionId = 1) := by
  simp only [serializeTimeProfile]
  have hinit : SInv ⟨Table.empty, Table.empty, []⟩ :=
    ⟨TWF_empty, TWF_empty, by simp, by simp [Table.empty]⟩
  have hstack : ∀ x ∈ ([] : List Nat),
      x ∈ idsOf (⟨Table.empty, Table.empty, []⟩ : SerState).locations := by simp
  have h := walkNode_inv intervalMicros [] ⟨Table.empty, Table.empty, []⟩ root hinit hstack
  obtain ⟨⟨hwf_f, hwf_l, hsamp, hloc⟩, _⟩ := h
  constructor
  · intro s hs lid hlid
    exact List.count_eq_one_of_mem hwf_l.2.1 (hsamp s hs lid hlid)
  · intro e he
    exact List.count_eq_one_of_mem hwf_f.2.1 (hloc e he)

/-- Witness for C6 at a concrete one-node profile. -/
theorem c6_witness :
    (idsOf (serializeTimeProfile ⟨"main", "script.js", 1, 3, 0, 1, []⟩ 1000).locations).count
        1 = 1 ∧
    (idsOf (serializeTimeProfile ⟨"main", "script.js", 1, 3, 0, 1, []⟩ 1000).functions).count
        1 = 1 := by
  have h := c6_table_consistency ⟨"main", "script.js", 1, 3, 0, 1, []⟩ 1000
  refine ⟨h.1 ⟨[1], (1, 1000)⟩ ?_ 1 ?_, h.2 (1, ⟨1, 3, 0⟩) ?_⟩
  · simp [serializeTimeProfile, walkNode.eq_1, walkList.eq_1, visitNode, intern,
      lookupId, Table.empty]
  · simp
  · simp [serializeTimeProfile, walkNode.eq_1, walkList.eq_1, visitNode, intern,
      lookupId, Table.empty]

/-- Claim C7: interning is idempotent and ids are monotone — re-interning an
equal value returns the existing id and creates no new entry; a fresh value
receives the table's next id, strictly greater than every previously assigned
id; the first id is 1; on a well-formed table the id 0 is never handed out
(interner modelled from the spec). -/
theorem c7_intern_idempotent_monotone :
    (∀ (α : Type) [DecidableEq α] (t : Table α) (v : α),
      intern (intern t v).2 v = ((intern t v).1, (intern t v).2)) ∧
    (∀ (α : Type) [DecidableEq α] (t : Table α) (v : α), TWF t →
      lookupId t.entries v = none →
        (intern t v).1 = t.nextId ∧ ∀ e ∈ t.entries, e.1 < (intern t v).1) ∧
    (∀ (α : Type) [DecidableEq α] (v : α),
      (intern (Table.empty : Table α) v).1 = 1) ∧
    (∀ (α : Type) [DecidableEq α] (t : Table α) (v : α), TWF t →
      (intern t v).1 ≠ 0) := by
  refine ⟨fun α _ t v => intern_idem t v, ?_, fun α _ v => intern_empty_id v, ?_⟩
  · intro α _ t v hwf hfresh
    exact ⟨intern_fresh hfresh, intern_fresh_gt hwf hfresh⟩
  · intro α _ t v hwf
    have := intern_pos v hwf
    omega

/-- Witness for C7 on the empty function table. -/
theorem c7_witness :
    intern (intern (Table.empty : Table FunctionRecord) ⟨"f", "s", 1⟩).2 ⟨"f", "s", 1⟩ =
      ((intern (Table.empty : Table FunctionRecord) ⟨"f", "s", 1⟩).1,
        (intern (Table.empty : Table FunctionRecord) ⟨"f", "s", 1⟩).2) ∧
    (intern (Table.empty : Table FunctionRecord) ⟨"f", "s", 1⟩).1 = 1 ∧
    (intern (Table.empty : Table FunctionRecord) ⟨"f", "s", 1⟩).1 ≠ 0 := by
  have h := c7_intern_idempotent_monotone
  exact ⟨h.1 FunctionRecord Table.empty ⟨"f", "s", 1⟩,
    (h.2.1 FunctionRecord Table.empty ⟨"f", "s", 1⟩ TWF_empty rfl).1,
    h.2.2.2 FunctionRecord Table.empty ⟨"f", "s", 1⟩ TWF_empty⟩

/-- Claim C8: for every node of the walked tree with hit-count field `h` under
a configured sampling interval of `i` microseconds, the emitted sample's
values are exactly `(h, h * i)` — the samples of the whole serialization, in
walk order, are precisely the positive-hit-count nodes with those values (so
hit count 7 at 1000µs yields exactly `(7, 7000)`; aggregation modelled from
the spec). -/
theorem c8_sample_values (root : TimeProfileNode) (intervalMicros : Nat) :
    (serializeTimeProfile root intervalMicros).samples.map Sample.value =
      (sampleNodes root).map (fun m => (m.hitCount, m.hitCount * intervalMicros)) := by
  rw [serializeTimeProfile.eq_1, walkNode_samples]
  simp

/-- Claim C9: in line-level mode, every non-root translated node carries the
function name, script name and script id of its parent NATIVE node (caller
attribution) rather than its own, keeps its own line and column numbers, and
its hit-count field holds the node's hit-line count rather than its own hit
count; children are recursively translated with the node itself as parent,
and the root's children are translated with the root as parent. -/
theorem c9_caller_attribution :
    (∀ p n : CpuProfileNode,
      (TranslateLineNumbersTimeProfileNode p n).name = p.name ∧
      (TranslateLineNumbersTimeProfileNode p n).scriptName = p.scriptName ∧
      (TranslateLineNumbersTimeProfileNode p n).scriptId = p.scriptId ∧
      (TranslateLineNumbersTimeProfileNode p n).lineNumber = n.lineNumber ∧
      (TranslateLineNumbersTimeProfileNode p n).columnNumber = n.columnNumber ∧
      (TranslateLineNumbersTimeProfileNode p n).hitCount = n.lineTicks.length ∧
      (TranslateLineNumbersTimeProfileNode p n).children.drop n.lineTicks.length =
        n.children.map (fun c => TranslateLineNumbersTimeProfileNode n c)) ∧
    (∀ r : CpuProfileNode,
      (TranslateLineNumbersTimeProfileRoot r).children =
        r.children.map (fun c => TranslateLineNumbersTimeProfileNode r c)) := by
  constructor
  · intro p n
    refine ⟨translateLN_name p n, translateLN_scriptName p n, translateLN_scriptId p n,
      translateLN_lineNumber p n, translateLN_columnNumber p n, translateLN_hitCount p n, ?_⟩
    rw [translateLN_children]
    have h := List.drop_left
      (n.lineTicks.map (fun e =>
        CreateTimeNode p.name p.scriptName p.scriptId e.1 0 e.2 []))
      (n.children.map (fun c => TranslateLineNumbersTimeProfileNode n c))
    rw [List.length_map] at h
    rw [h]
  · intro r
    rw [TranslateLineNumbersTimeProfileRoot, translateLNChildren_map]
    rfl

/-- Claim C10: a `profile` call whose options set `intervalMicros` to 0 or
omit it runs with the default sampling interval of 1000µs — the falsy 0 is
swallowed by `options.intervalMicros || DEFAULT_INTERVAL_MICROS` — and no
option value can ever select a zero interval through `profile`. -/
theorem c10_default_interval :
    profileIntervalMicros (some 0) = 1000 ∧
    profileIntervalMicros none = 1000 ∧
    (∀ o : Option Nat, profileIntervalMicros o ≠ 0) := by
  refine ⟨rfl, rfl, ?_⟩
  intro o
  cases o with
  | none => simp [profileIntervalMicros, jsOr, DEFAULT_INTERVAL_MICROS]
  | some v =>
      by_cases hv : v = 0 <;>
        simp [profileIntervalMicros, jsOr, hv, DEFAULT_INTERVAL_MICROS]

end Pprof
